import Mathlib

/-!
Verification of `convert_chat.py` (LM Studio chat-export → HTML converter).

This file shallowly embeds the two components the claims are about:

* `format_content` — the Markdown-lite formatter (an ordered pipeline of
  regex substitutions, a line-scan list builder, newline folding and a
  final paragraph wrap).  Each `re.sub` call of the source is embedded as a
  structurally recursive character scanner implementing exactly the
  left-to-right scan with lazy/greedy group semantics of the concrete
  pattern used by the source (documented at each definition).

* the message/step walker of `convert_conversation_to_html` — the part of
  the function that accumulates the `content_html` string: system prompt,
  one message bubble per message with a non-empty version list, and the
  assistant extras (thinking blocks, duration badge, response blocks,
  statistics, tool calls).

Strings are modelled as `List Char` inside the formatter (with `String`
wrappers at the boundaries).  JSON documents are modelled by records of
`Option`-valued fields mirroring the defensive `dict.get` lookups of the
source; JSON scalar values that are only ever interpolated into the output
are modelled by their rendered string.  The host time zone consulted by
`datetime.fromtimestamp` is modelled as a fixed offset (in seconds) passed
explicitly.
-/

/-- The backtick character (code 96), written via an escape. -/
def btk : Char := '\x60'

/-- Python `\s` / `str.strip` whitespace on ASCII text:
space, tab, newline, carriage return, vertical tab, form feed. -/
def pyWs (c : Char) : Bool :=
  c == ' ' || c == '\t' || c == '\n' || c == '\r' || c == '\x0b' || c == '\x0c'

/-- Python `str.strip()` from the right. -/
def stripEnd (l : List Char) : List Char :=
  (l.reverse.dropWhile pyWs).reverse

/-- Python `str.strip()`: drop whitespace from both ends. -/
def pyStrip (l : List Char) : List Char :=
  stripEnd (l.dropWhile pyWs)

/-- Python `str.split('\n')`: always non-empty, keeps empty pieces. -/
def splitNl : List Char → List (List Char)
  | [] => [[]]
  | c :: rest =>
    if c = '\n' then [] :: splitNl rest
    else
      match splitNl rest with
      | [] => [[c]]
      | h :: t => (c :: h) :: t

/-- `'\n'.join(lines)`. -/
def joinNl : List (List Char) → List Char
  | [] => []
  | [l] => l
  | l :: ls => l ++ '\n' :: joinNl ls

/-!
### Phase 1 — fenced code blocks

`re.sub(r'‹3 backticks›([\s\S]*?)‹3 backticks›', r'<pre><code>\1</code></pre>', s)`.

The scanner state is `none` (outside a fence) or `some pend` (the opening
fence has been read and `pend` is the reversed lazy group so far).  The
lazy group closes at the first later fence; an opening fence with no
closing fence matches nothing (and then no later match is possible either,
since any later candidate would need a fence occurrence the failed search
would have found), so the tail is emitted verbatim.
-/
def fenceGo : Option (List Char) → List Char → List Char
  | none, a :: b :: c :: rest =>
    if a = btk ∧ b = btk ∧ c = btk then fenceGo (some []) rest
    else a :: fenceGo none (b :: c :: rest)
  | none, l => l
  | some pend, a :: b :: c :: rest =>
    if a = btk ∧ b = btk ∧ c = btk then
      "<pre><code>".data ++ pend.reverse ++ "</code></pre>".data ++ fenceGo none rest
    else fenceGo (some (a :: pend)) (b :: c :: rest)
  | some pend, l => [btk, btk, btk] ++ pend.reverse ++ l

def subFence (l : List Char) : List Char := fenceGo none l

/-!
### Phase 2 — inline code

`re.sub(r'‹btk›([^‹btk›]+)‹btk›', r'<code>\1</code>', s)`.

A backtick opens; the greedy one-or-more group runs to the next backtick.
An immediately following backtick (empty group) is not a match: the first
backtick stays literal and the second becomes the new candidate opener,
exactly as the regex engine advances its scan position by one.
-/
def tickGo : Option (List Char) → List Char → List Char
  | none, [] => []
  | none, a :: rest =>
    if a = btk then tickGo (some []) rest else a :: tickGo none rest
  | some pend, [] => btk :: pend.reverse
  | some pend, a :: rest =>
    if a = btk then
      if pend = [] then btk :: tickGo (some []) rest
      else "<code>".data ++ pend.reverse ++ "</code>".data ++ tickGo none rest
    else tickGo (some (a :: pend)) rest

def subTick (l : List Char) : List Char := tickGo none l

/-!
### Phase 3 — ATX headers

`re.sub(r'^#{1,6}\s+(.*)$', r'<h3>\1</h3>', s, flags=re.MULTILINE)`.

Matches only start at a line start (`^`, MULTILINE).  One to six hashes
must be followed by at least one `\s` character; `\s+` is greedy and can
cross newlines (`\s` includes `'\n'`), after which `(.*)` captures up to
the end of the then-current line.  Scanner states:
`start` (at a line start), `hash k` (read `k` hashes at a line start),
`ws` (inside the whitespace run of a confirmed match), `body` (emitting
the captured group), `mid` (mid-line, no match possible until the next
line).
-/
inductive HdrSt where
  | start
  | hash (k : Nat)
  | ws
  | body
  | mid

def hdrGo : HdrSt → List Char → List Char
  | .start, [] => []
  | .start, c :: rest =>
    if c = '#' then hdrGo (.hash 1) rest
    else if c = '\n' then c :: hdrGo .start rest
    else c :: hdrGo .mid rest
  | .hash k, [] => List.replicate k '#'
  | .hash k, c :: rest =>
    if c = '#' then
      if k = 6 then List.replicate 7 '#' ++ hdrGo .mid rest
      else hdrGo (.hash (k + 1)) rest
    else if pyWs c then hdrGo .ws rest
    else List.replicate k '#' ++
      (if c = '\n' then c :: hdrGo .start rest else c :: hdrGo .mid rest)
  | .ws, [] => "<h3>".data ++ "</h3>".data
  | .ws, c :: rest =>
    if pyWs c then hdrGo .ws rest
    else "<h3>".data ++ c :: hdrGo .body rest
  | .body, [] => "</h3>".data
  | .body, c :: rest =>
    if c = '\n' then "</h3>".data ++ c :: hdrGo .start rest
    else c :: hdrGo .body rest
  | .mid, [] => []
  | .mid, c :: rest =>
    if c = '\n' then c :: hdrGo .start rest
    else c :: hdrGo .mid rest

def subHdr (l : List Char) : List Char := hdrGo .start l

/-!
### Phases 4–6 — bold, italic, strikethrough

Double-delimiter patterns `\*\*(.*?)\*\*`, `__(.*?)__`, `~~(.*?)~~` and
single-delimiter patterns `\*(.*?)\*`, `_(.*?)_`.  `.` does not match
`'\n'`, the groups are lazy (close at the earliest opportunity; for the
double patterns the group may hold single delimiter characters but never
two adjacent ones).  When a newline aborts a candidate match, the scanned
region is emitted verbatim: it cannot contain a later match start before
that newline (any closing pair inside it would have closed the aborted
candidate first).
-/
inductive DDSt where
  | out
  | outD
  | ins (pend : List Char)
  | insD (pend : List Char)

def ddGo (d : Char) (tOpen tClose : List Char) : DDSt → List Char → List Char
  | .out, [] => []
  | .out, c :: rest =>
    if c = d then ddGo d tOpen tClose .outD rest
    else c :: ddGo d tOpen tClose .out rest
  | .outD, [] => [d]
  | .outD, c :: rest =>
    if c = d then ddGo d tOpen tClose (.ins []) rest
    else d :: c :: ddGo d tOpen tClose .out rest
  | .ins pend, [] => d :: d :: pend.reverse
  | .ins pend, c :: rest =>
    if c = d then ddGo d tOpen tClose (.insD pend) rest
    else if c = '\n' then d :: d :: pend.reverse ++ c :: ddGo d tOpen tClose .out rest
    else ddGo d tOpen tClose (.ins (c :: pend)) rest
  | .insD pend, [] => d :: d :: pend.reverse ++ [d]
  | .insD pend, c :: rest =>
    if c = d then tOpen ++ pend.reverse ++ tClose ++ ddGo d tOpen tClose .out rest
    else if c = '\n' then d :: d :: pend.reverse ++ d :: c :: ddGo d tOpen tClose .out rest
    else ddGo d tOpen tClose (.ins (c :: d :: pend)) rest

def subDD (d : Char) (tOpen tClose : List Char) (l : List Char) : List Char :=
  ddGo d tOpen tClose .out l

inductive DSt where
  | out
  | ins (pend : List Char)

def dGo (d : Char) (tOpen tClose : List Char) : DSt → List Char → List Char
  | .out, [] => []
  | .out, c :: rest =>
    if c = d then dGo d tOpen tClose (.ins []) rest
    else c :: dGo d tOpen tClose .out rest
  | .ins pend, [] => d :: pend.reverse
  | .ins pend, c :: rest =>
    if c = d then tOpen ++ pend.reverse ++ tClose ++ dGo d tOpen tClose .out rest
    else if c = '\n' then d :: pend.reverse ++ c :: dGo d tOpen tClose .out rest
    else dGo d tOpen tClose (.ins (c :: pend)) rest

def subD (d : Char) (tOpen tClose : List Char) (l : List Char) : List Char :=
  dGo d tOpen tClose .out l

/-!
### Phase 7 — the line-scan list builder

The single pass over `formatted.split('\n')` with the `in_list` flag
(source lines 694–717).  `lines[i] = '<ul><li>' + line[2:].strip() + '</li>'`
opens a list, `'<li>' + line[2:].strip() + '</li>'` continues one; a
non-blank non-list line appends `'</ul><p>' + line` to the *previous*
line (leaving the current line in place as well); a blank line appends
`'</ul>'` to the previous line.  The accumulator is kept reversed, so the
"previous line" is its head.
-/
def isListLine (l : List Char) : Bool :=
  "- ".data.isPrefixOf (pyStrip l) || "* ".data.isPrefixOf (pyStrip l)

def rawListStart (l : List Char) : Bool :=
  "- ".data.isPrefixOf l || "* ".data.isPrefixOf l

/-- `line[2:].strip()` of the source. -/
def liItem (l : List Char) : List Char := pyStrip (l.drop 2)

def listStep : List (List Char) × Bool → List Char → List (List Char) × Bool
  | (acc, inl), line =>
    if isListLine line then
      if inl then (("<li>".data ++ liItem line ++ "</li>".data) :: acc, true)
      else (("<ul><li>".data ++ liItem line ++ "</li>".data) :: acc, true)
    else if inl && !(pyStrip line).isEmpty then
      if rawListStart line then
        (("<li>".data ++ liItem line ++ "</li>".data) :: acc, true)
      else
        match acc with
        | p :: t => (line :: (p ++ "</ul><p>".data ++ line) :: t, false)
        | [] => ([line], false)
    else if inl then
      match acc with
      | p :: t => (line :: (p ++ "</ul>".data) :: t, false)
      | [] => ([line], false)
    else (line :: acc, inl)

def listPass (ls : List (List Char)) : List (List Char) :=
  ((ls.foldl listStep ([], false)).1).reverse

def listPhase (l : List Char) : List Char :=
  joinNl (listPass (splitNl l))

/-!
### Phase 8 — blockquotes

`re.sub(r'^>\s+(.*)$', r'<blockquote>\1</blockquote>', s, flags=re.MULTILINE)`:
the same line-anchored shape as the header pass with marker `>`.
-/
inductive BqSt where
  | start
  | mark
  | ws
  | body
  | mid

def bqGo : BqSt → List Char → List Char
  | .start, [] => []
  | .start, c :: rest =>
    if c = '>' then bqGo .mark rest
    else if c = '\n' then c :: bqGo .start rest
    else c :: bqGo .mid rest
  | .mark, [] => ['>']
  | .mark, c :: rest =>
    if pyWs c then bqGo .ws rest
    else '>' :: c :: bqGo .mid rest
  | .ws, [] => "<blockquote>".data ++ "</blockquote>".data
  | .ws, c :: rest =>
    if pyWs c then bqGo .ws rest
    else "<blockquote>".data ++ c :: bqGo .body rest
  | .body, [] => "</blockquote>".data
  | .body, c :: rest =>
    if c = '\n' then "</blockquote>".data ++ c :: bqGo .start rest
    else c :: bqGo .body rest
  | .mid, [] => []
  | .mid, c :: rest =>
    if c = '\n' then c :: bqGo .start rest
    else c :: bqGo .mid rest

def subBq (l : List Char) : List Char := bqGo .start l

/-!
### Phases 9–10 — newline folding and the paragraph wrap

`formatted.replace('\n\n', '</p><p>').replace('\n', '<br>')` (left-to-right,
non-overlapping, exactly like `str.replace`) and the final
`if not formatted.startswith('<'): formatted = f'<p>…</p>'`.
-/
def foldPara : List Char → List Char
  | '\n' :: '\n' :: rest => "</p><p>".data ++ foldPara rest
  | a :: rest => a :: foldPara rest
  | [] => []

def foldBr : List Char → List Char
  | '\n' :: rest => "<br>".data ++ foldBr rest
  | a :: rest => a :: foldBr rest
  | [] => []

def pWrap (l : List Char) : List Char :=
  match l with
  | '<' :: _ => l
  | _ => "<p>".data ++ l ++ "</p>".data

/-- The whole substitution pipeline of `format_content`, in source order:
fenced code, inline code, headers, bold (`**`, `__`), italic (`*`, `_`),
strikethrough (`~~`), list scan, blockquotes, newline folding, wrap. -/
def formatPipeline (l : List Char) : List Char :=
  pWrap (foldBr (foldPara (subBq (listPhase (
    subDD '~' "<del>".data "</del>".data (
    subD '_' "<em>".data "</em>".data (
    subD '*' "<em>".data "</em>".data (
    subDD '_' "<strong>".data "</strong>".data (
    subDD '*' "<strong>".data "</strong>".data (
    subHdr (subTick (subFence l))))))))))))

/-- `format_content` of the source: `if not content: return ""` and then
the substitution pipeline. -/
def format_content (s : String) : String :=
  if s = "" then "" else String.mk (formatPipeline s.data)

/-- Number of (possibly overlapping) occurrences of `p` as a contiguous
substring of `s`, counted at every start position. -/
def countOcc (p : List Char) : List Char → Nat
  | [] => 0
  | c :: rest => (if p.isPrefixOf (c :: rest) then 1 else 0) + countOcc p rest

/-- Substring test used to state containment claims. -/
def hasSub (p : List Char) : List Char → Bool
  | [] => p.isEmpty
  | c :: rest => p.isPrefixOf (c :: rest) || hasSub p rest

/-- String-level wrappers. -/
def strCount (hay pat : String) : Nat := countOcc pat.data hay.data

def strHasSub (hay pat : String) : Bool := hasSub pat.data hay.data

/-!
## The message/step walker

A typed view of the JSON documents consumed by `convert_conversation_to_html`.
`Option` models the defensive presence checks (`dict.get`, `'k' in d`); for
dict-valued fields whose *truthiness* is tested by the source, `none` also
stands for a present-but-falsy (empty) value, as noted per field.  Scalars
that are only ever interpolated into the output (floats, opaque values) are
modelled by their rendered string.
-/

structure ContentPart where
  type : Option String
  text : String

structure Stats where
  stopReason : Option String
  tokensPerSecond : Option String
  timeToFirstTokenSec : Option String
  totalTimeSec : Option String
  promptTokensCount : Option Int
  predictedTokensCount : Option Int
  totalTokensCount : Option Int

/-- A value of a `loadModelConfig.fields` entry: either a scalar (modelled
by its rendered string) or a dict possibly holding the key `value` (whose
scalar is modelled by its repr string).  Scalar values reaching the
quantization branch would raise `AttributeError` in the source; such
documents are outside the modelled space. -/
inductive FieldVal where
  | prim (rendered : String)
  | obj (value : Option String)

structure ConfigField where
  key : Option String
  value : Option FieldVal

/-- `gen_info` record.  `loadModelConfig = some fs` models a present,
truthy `loadModelConfig` dict whose `fields` list (default `[]`) is `fs`;
`none` models an absent or falsy one. -/
structure GenInfo where
  stats : Option Stats
  indexedModelIdentifier : Option String
  loadModelConfig : Option (List ConfigField)

/-- A step `style` dict, restricted to the keys the exports use
(`type`, `title`, in that insertion order).  `none` at the `Step` level
models an absent or empty style dict. -/
structure StyleRec where
  type : Option String
  title : Option String

structure Step where
  type : Option String
  content : Option (List ContentPart)
  style : Option StyleRec
  genInfo : Option GenInfo

structure ToolFun where
  name : Option String
  arguments : Option String

structure ToolCall where
  function : Option ToolFun

structure Pre where
  timestamp : Option Int

structure Version where
  role : Option String
  preprocessed : Option Pre
  content : Option (List ContentPart)
  steps : Option (List Step)
  tool_calls : Option (List ToolCall)

structure Message where
  versions : Option (List Version)

structure Conversation where
  name : Option String
  systemPrompt : Option String
  createdAt : Option Int
  tokenCount : Option Int
  messages : Option (List Message)

/-!
### Timestamp rendering

`datetime.fromtimestamp(ms/1000).strftime('%Y-%m-%d %H:%M:%S')`.
The host's local time zone is modelled as a fixed offset `tz` in seconds;
the proleptic-Gregorian conversion between epoch days and civil dates is
the standard era-based algorithm (what CPython's `datetime` computes).
Lean's `Int` division rounds toward negative infinity for positive
divisors, matching Python's `//`.
-/

/-- Epoch day number → civil `(year, month, day)` (proleptic Gregorian).
The era (400-year cycle) is decomposed into century, quadrennium and year
with division by the respective cycle lengths; the `- doe / 146096` and
`- doq / 1460` terms remove the overshoot on the last (leap) day of a
cycle.  The month/day formulas use the standard March-based month
numbering `mp` with 153 days per 5-month group. -/
def civilFromDays (z : Int) : Int × Int × Int :=
  let zz := z + 719468
  let era := zz / 146097
  let doe := zz % 146097
  let cc := doe / 36524 - doe / 146096
  let doc := doe - cc * 36524
  let qc := doc / 1461
  let doq := doc - qc * 1461
  let yq := doq / 365 - doq / 1460
  let doy := doq - yq * 365
  let yoe := 100 * cc + 4 * qc + yq
  let mp := (5 * doy + 2) / 153
  let dd := doy - (153 * mp + 2) / 5 + 1
  let m := mp + (if mp < 10 then 3 else (-9 : Int))
  (yoe + era * 400 + (if m ≤ 2 then 1 else 0), m, dd)

/-- Civil `(year, month, day)` → epoch day number (proleptic Gregorian). -/
def daysFromCivil (y m d : Int) : Int :=
  let y2 := y - (if m ≤ 2 then 1 else 0)
  let era := y2 / 400
  let yoe := y2 - era * 400
  let doy := (153 * (m + (if 2 < m then -3 else 9)) + 2) / 5 + d - 1
  let doe := yoe * 365 + yoe / 4 - yoe / 100 + doy
  era * 146097 + doe - 719468

def digitCh (n : Nat) : Char := Char.ofNat (48 + n % 10)

def pad2 (n : Nat) : List Char := [digitCh (n / 10), digitCh n]

def pad4 (n : Nat) : List Char :=
  [digitCh (n / 1000), digitCh (n / 100), digitCh (n / 10), digitCh n]

/-- `'%Y-%m-%d %H:%M:%S'` applied to the wall-clock time `t` seconds after
the epoch (already shifted into local time). -/
def fmtDateTime (t : Int) : List Char :=
  let days := t / 86400
  let sod := (t % 86400).toNat
  let c := civilFromDays days
  pad4 c.1.toNat ++ '-' :: pad2 c.2.1.toNat ++ '-' :: pad2 c.2.2.toNat ++
    ' ' :: pad2 (sod / 3600) ++ ':' :: pad2 (sod % 3600 / 60) ++ ':' :: pad2 (sod % 60)

/-- The timestamp string rendered for epoch-millisecond `ms` under local
offset `tz` (seconds).  Seconds are floored, as `%S` drops the fraction. -/
def fmtTimestamp (tz ms : Int) : String :=
  String.mk (fmtDateTime (ms / 1000 + tz))

def digitVal (c : Char) : Nat := c.toNat - 48

/-- `datetime.strptime(s, '%Y-%m-%d %H:%M:%S')`: exact layout, all-digit
fields, with the field ranges `strptime` accepts. -/
def parseDateTime (l : List Char) : Option (Int × Int × Int × Int × Int × Int) :=
  match l with
  | [y1, y2, y3, y4, '-', m1, m2, '-', d1, d2, ' ', h1, h2, ':', n1, n2, ':', s1, s2] =>
    if ([y1, y2, y3, y4, m1, m2, d1, d2, h1, h2, n1, n2, s1, s2].all Char.isDigit) then
      let y : Int := (digitVal y1 * 1000 + digitVal y2 * 100 + digitVal y3 * 10 + digitVal y4 : Nat)
      let mo : Int := (digitVal m1 * 10 + digitVal m2 : Nat)
      let da : Int := (digitVal d1 * 10 + digitVal d2 : Nat)
      let hh : Int := (digitVal h1 * 10 + digitVal h2 : Nat)
      let mi : Int := (digitVal n1 * 10 + digitVal n2 : Nat)
      let ss : Int := (digitVal s1 * 10 + digitVal s2 : Nat)
      if 1 ≤ mo ∧ mo ≤ 12 ∧ 1 ≤ da ∧ da ≤ 31 ∧ hh ≤ 23 ∧ mi ≤ 59 ∧ ss ≤ 61 then
        some (y, mo, da, hh, mi, ss)
      else none
    else none
  | _ => none

/-- Re-parsing a rendered timestamp with the same format and the same
local offset, back to an epoch second count. -/
def parseTimestamp (tz : Int) (s : String) : Option Int :=
  (parseDateTime s.data).map fun t =>
    daysFromCivil t.1 t.2.1 t.2.2.1 * 86400 +
      t.2.2.2.1 * 3600 + t.2.2.2.2.1 * 60 + t.2.2.2.2.2 - tz

/-!
### HTML assembly (`content_html` of `convert_conversation_to_html`)

Each definition transcribes one fragment of the f-string assembly of the
source, with the exact literal whitespace of the triple-quoted strings.
-/

/-- Python `str.capitalize()`: first character upper-cased, rest lowered. -/
def pyCapitalize (s : String) : String :=
  match s.data with
  | [] => ""
  | c :: rest => String.mk (c.toUpper :: rest.map Char.toLower)

/-- Python `str.lower()` (ASCII). -/
def pyLower (s : String) : String := s.map Char.toLower

/-- The body-text loop (source lines 47–51): every `type == "text"` part
overwrites `message_content`; other parts are skipped. -/
def extractText (parts : List ContentPart) : String :=
  parts.foldl (fun acc p => if p.type = some "text" then p.text else acc) ""

/-- `data['systemPrompt'].replace('\\n', '<br>')`: the source's pattern is
the two characters backslash + `n` (an escaped backslash in the f-string),
not a newline. -/
def replBsN : List Char → List Char
  | '\\' :: 'n' :: rest => "<br>".data ++ replBsN rest
  | a :: rest => a :: replBsN rest
  | [] => []

/-- The system-prompt block (source lines 26–32): emitted only when
`data.get('systemPrompt')` is truthy (present and non-empty). -/
def systemPromptHtml (d : Conversation) : String :=
  match d.systemPrompt with
  | some s =>
    if s ≠ "" then
      "\n        <div class=\"system-prompt\">\n            <div class=\"system-prompt-title\">System Prompt</div>\n            <div>" ++
        String.mk (replBsN s.data) ++ "</div>\n        </div>\n        "
    else ""
  | none => ""

def optItem {α : Type} (o : Option α) (f : α → String) : List String :=
  match o with
  | some v => [f v]
  | none => []

/-- `round(x, 2)` of the source, with Python's float rounding abstracted to
exact rational half-up rounding; no claim inspects the digits. -/
def round2 (q : Rat) : Rat := (Rat.floor (q * 100 + 1 / 2) : Rat) / 100

/-- The guarded derived items (source lines 138–151): `prompt_tokens`,
`predicted_tokens`, `total_tokens` are `.get(…, 0)` defaults, the ratio
and efficiency lines require the respective strict positivity. -/
def ratioItems (st : Stats) : List String :=
  let prompt_tokens := st.promptTokensCount.getD 0
  let predicted_tokens := st.predictedTokensCount.getD 0
  let total_tokens := st.totalTokensCount.getD 0
  if 0 < predicted_tokens ∧ 0 < prompt_tokens then
    ["Tokens/Prompt Token Ratio: " ++
       toString (round2 ((predicted_tokens : Rat) / (prompt_tokens : Rat)))] ++
    (if 0 < total_tokens then
       ["Efficiency: " ++
          toString (round2 ((predicted_tokens : Rat) / (total_tokens : Rat) * 100)) ++ "%"]
     else [])
  else []

/-- Model-name item (source lines 100–104). -/
def modelItems (g : GenInfo) : List String :=
  let mi := g.indexedModelIdentifier.getD "Unknown"
  if mi ≠ "Unknown" then
    [("Model: " ++ (if strHasSub mi "/" then ((mi.splitOn "/").getLast?).getD mi else mi))]
  else []

/-- `f"{field.get('value')}"` for a config field. -/
def fieldShow (v : Option FieldVal) : String :=
  match v with
  | none => "None"
  | some (.prim r) => r
  | some (.obj ov) =>
    match ov with
    | none => "\x7b\x7d"
    | some s => "\x7b\x27value\x27: " ++ s ++ "\x7d"

/-- `field.get('value', {}).get('value', 'Unknown')`. -/
def quantShow (v : Option FieldVal) : String :=
  match v with
  | some (.obj ov) => ov.getD "Unknown"
  | _ => "Unknown"

def contextItems (g : GenInfo) : List String :=
  match g.loadModelConfig with
  | some fields =>
    fields.filterMap fun f =>
      if f.key = some "llm.load.contextLength" then
        some ("Context Length: " ++ fieldShow f.value)
      else none
  | none => []

def quantItems (g : GenInfo) : List String :=
  match g.loadModelConfig with
  | some fields =>
    fields.filterMap fun f =>
      if f.key = some "llm.load.llama.vCacheQuantizationType" then
        some ("V Cache Quant: " ++ quantShow f.value)
      else if f.key = some "llm.load.llama.kCacheQuantizationType" then
        some ("K Cache Quant: " ++ quantShow f.value)
      else none
  | none => []

def cpuItems (g : GenInfo) : List String :=
  match g.loadModelConfig with
  | some fields =>
    fields.filterMap fun f =>
      if f.key = some "llm.load.llama.cpuThreadPoolSize" then
        some ("CPU Threads: " ++ fieldShow f.value)
      else none
  | none => []

/-- `stat_items` in source order (lines 82–151). -/
def statItems (st : Stats) (g : GenInfo) : List String :=
  optItem st.stopReason (fun v => "Stop Reason: " ++ v) ++
  optItem st.tokensPerSecond (fun v => "Tokens Per Second: " ++ v) ++
  optItem st.timeToFirstTokenSec (fun v => "Time to First Token: " ++ v ++ "s") ++
  optItem st.totalTimeSec (fun v => "Total Time: " ++ v ++ "s") ++
  optItem st.promptTokensCount (fun v => "Prompt Tokens: " ++ toString v) ++
  optItem st.predictedTokensCount (fun v => "Predicted Tokens: " ++ toString v) ++
  optItem st.totalTokensCount (fun v => "Total Tokens: " ++ toString v) ++
  modelItems g ++ contextItems g ++ quantItems g ++ cpuItems g ++ ratioItems st

/-- One stats section (emitted per step whose `genInfo.stats` is truthy). -/
def statsSection (g : GenInfo) : String :=
  match g.stats with
  | some st =>
    "\n                                    <div class=\"stats-section\">\n                                        <div class=\"stats-title\">Model Generation Statistics</div>\n                            " ++
    String.join ((statItems st g).map
      (fun it => "<div class=\"stat-item\">" ++ it ++ "</div>")) ++
    "</div>"
  | none => ""

/-- The first pass over `version['steps']` accumulating `stats_html`. -/
def statsHtmlOf (steps : List Step) : String :=
  String.join (steps.map fun s =>
    match s.genInfo with
    | some g => statsSection g
    | none => "")

def toolItem (t : ToolCall) : String :=
  "<div class=\"tool-call-item\"><span class=\"tool-name\">" ++
    ((t.function.bind (·.name)).getD "Unknown") ++ "</span>: " ++
    ((t.function.bind (·.arguments)).getD "\x7b\x7d") ++ "</div>"

/-- `tool_calls_html` (source lines 159–166): emitted only when
`version['tool_calls']` is present and non-empty. -/
def toolCallsHtmlOf (v : Version) : String :=
  match v.tool_calls with
  | some (tc :: tcs) =>
    "<div class=\"tool-calls\">" ++
    "<div class=\"tool-call-item\"><strong>Tool Calls:</strong></div>" ++
    String.join ((tc :: tcs).map toolItem) ++ "</div>"
  | _ => ""

/-- `'thinking' in str(step.get('style', {})).lower()`, with the style dict
repr built from the modelled keys in insertion order. -/
def styleShow (st : Option StyleRec) : String :=
  match st with
  | none => "\x7b\x7d"
  | some s =>
    "\x7b" ++
    String.intercalate ", "
      (optItem s.type (fun t => "\x27type\x27: \x27" ++ t ++ "\x27") ++
       optItem s.title (fun t => "\x27title\x27: \x27" ++ t ++ "\x27")) ++
    "\x7d"

def isThinking (st : Option StyleRec) : Bool :=
  strHasSub (pyLower (styleShow st)) "thinking"

/-- Thinking-process fragments of one step (source lines 169–181). -/
def thinkFrag (s : Step) : String :=
  if s.type = some "contentBlock" then
    String.join ((s.content.getD []).map fun p =>
      if p.type = some "text" then
        if isThinking s.style then
          "\n                                    <div class=\"thinking-process\">\n                                        <strong>Thinking Process:</strong><br>\n                                        " ++
          format_content p.text ++
          "\n                                    </div>\n                                    "
        else ""
      else "")
  else ""

def thinkingHtml (steps : List Step) : String :=
  String.join (steps.map thinkFrag)

/-- Thinking-duration badge of one step (source lines 184–192). -/
def durFrag (s : Step) : String :=
  match s.style with
  | some st =>
    match st.title with
    | some t =>
      if strHasSub t "Thought for" && strHasSub t "seconds" then
        "\n                                    <div class=\"thinking-duration\">\n                                        " ++
        t ++
        "\n                                    </div>\n                                    "
      else ""
    | none => ""
  | none => ""

def durationHtml (steps : List Step) : String :=
  String.join (steps.map durFrag)

/-- Response fragments of one step (source lines 196–207). -/
def respFrag (s : Step) : String :=
  if s.type = some "contentBlock" then
    String.join ((s.content.getD []).map fun p =>
      if p.type = some "text" then
        if isThinking s.style then ""
        else
          "\n                                    <div class=\"response-content\">\n                                        <strong>Model Response:</strong><br>\n                                        " ++
          format_content p.text ++
          "\n                                    </div>\n                                    "
      else "")
  else ""

def responseHtml (steps : List Step) : String :=
  String.join (steps.map respFrag)

/-- The opening bubble of a message (source lines 54–62). -/
def bubbleHtml (tz : Int) (v : Version) : String :=
  let role := v.role.getD "unknown"
  let timestamp :=
    match v.preprocessed with
    | some p =>
      match p.timestamp with
      | some ts => fmtTimestamp tz ts
      | none => ""
    | none => ""
  "\n            <div class=\"message " ++ role ++
  "\">\n                <div class=\"message-bubble\">\n                    <div class=\"message-header\">\n                        <span class=\"message-role\">" ++
  pyCapitalize role ++ "</span>\n                        " ++
  (if timestamp ≠ "" then
     "<span class=\"message-timestamp\">" ++ timestamp ++ "</span>"
   else "") ++
  "\n                    </div>\n                    <div>" ++
  format_content (extractText (v.content.getD [])) ++ "</div>\n            "

/-- The assistant extras (source lines 64–217), in the source's
computation order: `stats_html` and `tool_calls_html` are collected first
but appended only after the thinking, duration and response fragments. -/
def assistantExtras (v : Version) (steps : List Step) : String :=
  let stats_html := statsHtmlOf steps
  let tool_calls_html := toolCallsHtmlOf v
  thinkingHtml steps ++ durationHtml steps ++ responseHtml steps ++
  (if stats_html ≠ "" then stats_html else "") ++
  (if tool_calls_html ≠ "" then tool_calls_html else "")

/-- One full message bubble: the extras are appended only when the role is
exactly `'assistant'` and `'steps' in version` (source line 65); the block
always closes with `</div></div>` (source line 219). -/
def messageHtml (tz : Int) (v : Version) : String :=
  bubbleHtml tz v ++
  (if v.role.getD "unknown" = "assistant" then
     match v.steps with
     | some steps => assistantExtras v steps
     | none => ""
   else "") ++
  "</div></div>"

/-- Source lines 35–37: a message renders only when `'versions' in message`
and the list is non-empty; `versions[0]` is used. -/
def renderMessage (tz : Int) (m : Message) : String :=
  match m.versions with
  | some (v :: _) => messageHtml tz v
  | _ => ""

def messagesHtml (tz : Int) (msgs : List Message) : String :=
  String.join (msgs.map (renderMessage tz))

/-- The full `content_html` accumulator of `convert_conversation_to_html`
(the part of the output template that depends on the document). -/
def buildContentHtml (tz : Int) (d : Conversation) : String :=
  systemPromptHtml d ++ messagesHtml tz (d.messages.getD [])

/-!
## Auxiliary definitions for the claims
-/

/-- `part.get('type') == 'text'` as a boolean predicate. -/
def isTextPart (p : ContentPart) : Bool := p.type == some "text"

/-- `'versions' in message and len(message['versions']) > 0`. -/
def hasVersions (m : Message) : Bool :=
  match m.versions with
  | some (_ :: _) => true
  | _ => false

/-- The literal opening every message block starts with. -/
def msgOpen (role : String) : String :=
  "\n            <div class=\"message " ++ role

/-- A line free of literal `<ul>` / `</ul>` occurrences (so every such
occurrence of the scanned output was inserted by the list scan itself). -/
def noUl (l : List Char) : Bool :=
  (countOcc "<ul>".data l == 0) && (countOcc "</ul>".data l == 0)

/-- Per-accumulator total of literal occurrences of the list-open tag. -/
def ulSum (acc : List (List Char)) : Nat := (acc.map (countOcc "<ul>".data)).sum

/-- Per-accumulator total of literal occurrences of the list-close tag. -/
def culSum (acc : List (List Char)) : Nat := (acc.map (countOcc "</ul>".data)).sum

/-- Invariant of the list scan: the accumulated lines hold exactly one more
open tag than close tags while the flag is set (and exactly as many when it
is clear), and a set flag means the newest accumulated line ends in the
closing bracket of an inserted tag. -/
def ScanInv (st : List (List Char) × Bool) : Prop :=
  ulSum st.1 = culSum st.1 + (if st.2 then 1 else 0) ∧
  (st.2 = true → ∃ h t, st.1 = h :: t ∧ h.getLast? = some '>')

/-- Witness for C10: a version whose role is `'Assistant'` (capitalised),
carrying both a steps list with thinking/response content and a tool
call, still renders as the bare bubble. -/
def c10v : Version :=
  { role := some "Assistant"
    preprocessed := none
    content := some [⟨some "text", "hello"⟩]
    steps := some
      [⟨some "contentBlock", some [⟨some "text", "reasoning here"⟩],
         some ⟨some "thinking", some "Thought for 2 seconds"⟩, none⟩,
       ⟨some "contentBlock", some [⟨some "text", "answer"⟩], none, none⟩]
    tool_calls := some [⟨some ⟨some "search", some "\x7b\x7d"⟩⟩] }

/-- Witness steps for C5, deliberately ordered statistics first, then a
response block, then a thinking block, then the duration badge. -/
def c5steps : List Step :=
  [⟨none, none, none,
     some ⟨some ⟨some "eosFound", none, none, none, some 10, some 5, some 15⟩,
           none, none⟩⟩,
   ⟨some "contentBlock", some [⟨some "text", "answer"⟩], none, none⟩,
   ⟨some "contentBlock", some [⟨some "text", "hmm"⟩],
     some ⟨some "thinking", none⟩, none⟩,
   ⟨none, none, some ⟨none, some "Thought for 3 seconds"⟩, none⟩]

def c5v : Version :=
  ⟨some "assistant", none, some [⟨some "text", "body"⟩], some c5steps, none⟩

/-- Witness stats for C6: a zero prompt-token count with positive
predicted and total counts. -/
def c6st : Stats :=
  ⟨some "eosFound", some "42.0", none, none, some 0, some 7, some 7⟩

def c6g : GenInfo := ⟨some c6st, none, none⟩

/-- Everything of the bubble after the `msgOpen` literal. -/
def bubbleRest (tz : Int) (v : Version) : String :=
  let role := v.role.getD "unknown"
  let timestamp :=
    match v.preprocessed with
    | some p =>
      match p.timestamp with
      | some ts => fmtTimestamp tz ts
      | none => ""
    | none => ""
  "\">\n                <div class=\"message-bubble\">\n                    <div class=\"message-header\">\n                        <span class=\"message-role\">" ++
  pyCapitalize role ++ "</span>\n                        " ++
  (if timestamp ≠ "" then
     "<span class=\"message-timestamp\">" ++ timestamp ++ "</span>"
   else "") ++
  "\n                    </div>\n                    <div>" ++
  format_content (extractText (v.content.getD [])) ++ "</div>\n            "

/-!
## Claims C1 and C2 — concrete formatter traces
-/

example : format_content "- a\n- b\nc" = "<ul><li>a</li><br><li>b</li></ul><p>c<br>c" := by
  rfl

example : format_content "\x60\x60\x60a\nb\x60\x60\x60" = "<pre><code>a<br>b</code></pre>" := by
  rfl

example : format_content "#\n- a" = "<h3>- a</h3>" := by rfl

/-- Claim C1: on the input `"- a\n- b\nc"`, `format_content` produces a
single `<ul>` holding exactly two `<li>` entries, and the `</ul>` is
emitted before the `<p>` paragraph that carries the text `c` (the scan also
duplicates the closing line `c`, which the claim does not constrain). -/
theorem C1_list_state_machine :
    format_content "- a\n- b\nc" = "<ul><li>a</li><br><li>b</li></ul><p>c<br>c" ∧
    strCount (format_content "- a\n- b\nc") "<ul>" = 1 ∧
    strCount (format_content "- a\n- b\nc") "<li>" = 2 ∧
    strHasSub (format_content "- a\n- b\nc") "</ul><p>c" = true :=
  ⟨rfl, rfl, rfl, rfl⟩

/-- Claim C2, counterexample: the output for ```` "```a\nb```" ```` does
*not* contain the substring `<pre><code>a\nb</code></pre>` — the newline
inside the code block is rewritten to `<br>` by the later newline-folding
pass (`.replace('\n', '<br>')` runs on the whole string, fenced blocks
included). -/
theorem C2_counterexample :
    strHasSub (format_content "\x60\x60\x60a\nb\x60\x60\x60")
      "<pre><code>a\nb</code></pre>" = false :=
  rfl

/-- Claim C2, amended: the output for ```` "```a\nb```" ```` is exactly
`<pre><code>a<br>b</code></pre>` — the fenced block round-trips with the
inner newline folded to `<br>`, and no backtick fence marker survives. -/
theorem C2_amended :
    format_content "\x60\x60\x60a\nb\x60\x60\x60" = "<pre><code>a<br>b</code></pre>" ∧
    strHasSub (format_content "\x60\x60\x60a\nb\x60\x60\x60")
      "<pre><code>a<br>b</code></pre>" = true ∧
    strCount (format_content "\x60\x60\x60a\nb\x60\x60\x60") "\x60" = 0 :=
  ⟨rfl, rfl, rfl⟩

/-!
## Shared string lemmas
-/

theorem str_empty_append (s : String) : "" ++ s = s := by
  cases s
  rfl

theorem str_append_empty (s : String) : s ++ "" = s := by
  cases s with
  | mk data => show String.mk (data ++ []) = String.mk data
               rw [List.append_nil]

theorem str_append_assoc (a b c : String) : a ++ b ++ c = a ++ (b ++ c) := by
  cases a with
  | mk da =>
    cases b with
    | mk db =>
      cases c with
      | mk dc =>
        show String.mk (da ++ db ++ dc) = String.mk (da ++ (db ++ dc))
        rw [List.append_assoc]

/-- `if s: x += s` of the source is the identity on the accumulated text. -/
theorem ite_ne_empty (s : String) : (if s ≠ "" then s else "") = s := by
  by_cases h : s = ""
  · simp [h]
  · simp [h]

/-!
## Claim C7 — missing system prompt
-/

/-- Claim C7: when `systemPrompt` is absent, no system-prompt block is
emitted at all — the system-prompt fragment is the empty string and
`content_html` is exactly the messages html. -/
theorem C7_no_system_prompt (tz : Int) (d : Conversation)
    (h : d.systemPrompt = none) :
    systemPromptHtml d = "" ∧
    buildContentHtml tz d = messagesHtml tz (d.messages.getD []) := by
  have h1 : systemPromptHtml d = "" := by
    simp [systemPromptHtml, h]
  exact ⟨h1, by rw [buildContentHtml, h1, str_empty_append]⟩

theorem C7_witness :
    systemPromptHtml ⟨none, none, none, none, none⟩ = "" ∧
    buildContentHtml 0 ⟨none, none, none, none, none⟩ =
      messagesHtml 0 ((Conversation.messages ⟨none, none, none, none, none⟩).getD []) :=
  C7_no_system_prompt 0 ⟨none, none, none, none, none⟩ rfl

/-!
## Claim C10 — the role gate for steps-derived output
-/

/-- Claim C10: thinking blocks, duration badge, response blocks,
statistics and tool calls are emitted only under `role == 'assistant'`
(lower-case, exact).  For any other role the bubble is just the header and
body, even if the version carries `steps` and `tool_calls`. -/
theorem C10_role_gate (tz : Int) (v : Version)
    (h : v.role.getD "unknown" ≠ "assistant") :
    messageHtml tz v = bubbleHtml tz v ++ "</div></div>" := by
  rw [messageHtml, if_neg h, str_append_empty]

theorem C10_witness :
    messageHtml 0 c10v = bubbleHtml 0 c10v ++ "</div></div>" :=
  C10_role_gate 0 c10v (by decide)

/-!
## Claim C5 — fixed assembly order of assistant output
-/

/-- Claim C5: for an assistant version with a steps list, the rendered
message decomposes into the fixed category order — thinking blocks, then
the duration badge, then all response blocks, then the statistics
sections, then the tool calls — each category being its own full pass
over the steps, independent of how the categories interleave in the
original step order. -/
theorem C5_assembly_order (tz : Int) (v : Version) (steps : List Step)
    (hrole : v.role.getD "unknown" = "assistant") (hsteps : v.steps = some steps) :
    messageHtml tz v =
      bubbleHtml tz v ++ thinkingHtml steps ++ durationHtml steps ++
        responseHtml steps ++ statsHtmlOf steps ++ toolCallsHtmlOf v ++
        "</div></div>" := by
  simp only [messageHtml, if_pos hrole, hsteps, assistantExtras, ite_ne_empty,
    str_append_assoc]

theorem C5_witness :
    messageHtml 0 c5v =
      bubbleHtml 0 c5v ++ thinkingHtml c5steps ++ durationHtml c5steps ++
        responseHtml c5steps ++ statsHtmlOf c5steps ++ toolCallsHtmlOf c5v ++
        "</div></div>" :=
  C5_assembly_order 0 c5v c5steps rfl rfl

/-!
## Claim C3 — the last text part wins
-/

/-- The body-text loop computes the text of the last `type == "text"`
part (or the empty string when there is none). -/
theorem extractText_eq_getLast (parts : List ContentPart) :
    extractText parts =
      (((parts.filter isTextPart).getLast?).map (·.text)).getD "" := by
  induction parts using List.reverseRecOn with
  | nil => rfl
  | append_singleton l x ih =>
    show (l ++ [x]).foldl _ "" = _
    rw [List.foldl_append, List.filter_append]
    by_cases hx : isTextPart x
    · have hx' : x.type = some "text" := by simpa [isTextPart] using hx
      simp [hx, List.foldl, hx', extractText]
    · have hx' : ¬ x.type = some "text" := by
        intro hh
        exact hx (by simp [isTextPart, hh])
      simpa [hx, List.foldl, hx', extractText] using ih

/-- Claim C3: when a version's content list has more than one
`type == "text"` part, the rendered body is the text of the *last* such
part — later iterations overwrite earlier ones, parts of other types are
never taken. -/
theorem C3_last_text_wins (parts : List ContentPart)
    (h : 1 < (parts.filter isTextPart).length) :
    ∃ p, (parts.filter isTextPart).getLast? = some p ∧
      extractText parts = p.text ∧ p.type = some "text" := by
  have hne : parts.filter isTextPart ≠ [] := by
    intro hh
    rw [hh] at h
    simp at h
  cases hx : (parts.filter isTextPart).getLast? with
  | none =>
    exact absurd (List.getLast?_eq_none_iff.mp hx) hne
  | some p =>
    refine ⟨p, rfl, ?_, ?_⟩
    · rw [extractText_eq_getLast, hx]
      rfl
    · have hmem : p ∈ parts.filter isTextPart := by
        obtain ⟨hne2, hp2⟩ :=
          List.mem_getLast?_eq_getLast (l := parts.filter isTextPart) (x := p)
            (by rw [hx]; rfl)
        rw [hp2]
        exact List.getLast_mem hne2
      have := (List.mem_filter.mp hmem).2
      simpa [isTextPart] using this

theorem C3_witness :
    ∃ p, (([⟨some "text", "first"⟩, ⟨some "tool", "skip"⟩,
            ⟨some "text", "last"⟩] : List ContentPart).filter isTextPart).getLast? = some p ∧
      extractText [⟨some "text", "first"⟩, ⟨some "tool", "skip"⟩,
            ⟨some "text", "last"⟩] = p.text ∧ p.type = some "text" :=
  C3_last_text_wins _ (by decide)

/-!
## Claim C6 — the division-by-zero guard on token statistics
-/

theorem take_prefix_of_prefix_append (p h v : List Char) (hp : p <+: h ++ v) :
    h.take p.length <+: p := by
  have h1 : h.take p.length <+: h ++ v :=
    (List.take_prefix _ _).trans (List.prefix_append _ _)
  refine List.prefix_of_prefix_length_le h1 hp ?_
  simp [List.length_take]

theorem not_prefix_of_head (p h v : List Char)
    (hq : ¬ h.take p.length <+: p) : ¬ p <+: h ++ v :=
  fun hp => hq (take_prefix_of_prefix_append p h v hp)

/-- A pattern cannot be a prefix of `headStr ++ v` when it disagrees with
`headStr` on their common length. -/
theorem not_prefix_str (headStr v : String) (pat : List Char)
    (hq : ¬ (headStr.data.take pat.length) <+: pat) :
    ¬ pat <+: (headStr ++ v).data := by
  rw [String.data_append]
  exact not_prefix_of_head pat headStr.data v.data hq

theorem mem_optItem {α : Type} {o : Option α} {f : α → String} {s : String}
    (h : s ∈ optItem o f) : ∃ v, s = f v := by
  cases o with
  | none => simp [optItem] at h
  | some v =>
    simp [optItem] at h
    exact ⟨v, h⟩

theorem mem_modelItems {g : GenInfo} {s : String} (h : s ∈ modelItems g) :
    ∃ v, s = "Model: " ++ v := by
  simp only [modelItems] at h
  split at h
  · simp at h
    exact ⟨_, h⟩
  · simp at h

theorem mem_contextItems {g : GenInfo} {s : String} (h : s ∈ contextItems g) :
    ∃ v, s = "Context Length: " ++ v := by
  unfold contextItems at h
  split at h
  · obtain ⟨f, _, hf⟩ := List.mem_filterMap.mp h
    split at hf
    · exact ⟨_, (Option.some.injEq _ _ ▸ hf).symm⟩
    · simp at hf
  · simp at h

theorem mem_quantItems {g : GenInfo} {s : String} (h : s ∈ quantItems g) :
    ∃ v, s = "V Cache Quant: " ++ v ∨ s = "K Cache Quant: " ++ v := by
  unfold quantItems at h
  split at h
  · obtain ⟨f, _, hf⟩ := List.mem_filterMap.mp h
    split at hf
    · exact ⟨_, Or.inl (Option.some.injEq _ _ ▸ hf).symm⟩
    · split at hf
      · exact ⟨_, Or.inr (Option.some.injEq _ _ ▸ hf).symm⟩
      · simp at hf
  · simp at h

theorem mem_cpuItems {g : GenInfo} {s : String} (h : s ∈ cpuItems g) :
    ∃ v, s = "CPU Threads: " ++ v := by
  unfold cpuItems at h
  split at h
  · obtain ⟨f, _, hf⟩ := List.mem_filterMap.mp h
    split at hf
    · exact ⟨_, (Option.some.injEq _ _ ▸ hf).symm⟩
    · simp at hf
  · simp at h

/-- Claim C6: with `promptTokensCount` zero or absent, the guarded branch
computing `predicted / prompt` (and `predicted / total`) never runs: the
derived ratio and efficiency items are not produced, and no emitted stat
line starts with either label. -/
theorem C6_division_guard (st : Stats) (g : GenInfo)
    (h : st.promptTokensCount = none ∨ st.promptTokensCount = some 0) :
    ratioItems st = [] ∧
    ∀ it ∈ statItems st g,
      ¬ ("Tokens/Prompt Token Ratio:".data <+: it.data) ∧
      ¬ ("Efficiency:".data <+: it.data) := by
  have hr : ratioItems st = [] := by
    rcases h with h | h <;> simp [ratioItems, h]
  refine ⟨hr, ?_⟩
  intro it hit
  rw [statItems, hr] at hit
  simp only [List.append_nil, List.mem_append] at hit
  rcases hit with ((((((((((h1 | h2) | h3) | h4) | h5) | h6) | h7) | h8) | h9) | h10) | h11)
  · obtain ⟨v, rfl⟩ := mem_optItem h1
    exact ⟨not_prefix_str _ v _ (by decide), not_prefix_str _ v _ (by decide)⟩
  · obtain ⟨v, rfl⟩ := mem_optItem h2
    exact ⟨not_prefix_str _ v _ (by decide), not_prefix_str _ v _ (by decide)⟩
  · obtain ⟨v, rfl⟩ := mem_optItem h3
    rw [str_append_assoc]
    exact ⟨not_prefix_str _ _ _ (by decide), not_prefix_str _ _ _ (by decide)⟩
  · obtain ⟨v, rfl⟩ := mem_optItem h4
    rw [str_append_assoc]
    exact ⟨not_prefix_str _ _ _ (by decide), not_prefix_str _ _ _ (by decide)⟩
  · obtain ⟨v, rfl⟩ := mem_optItem h5
    exact ⟨not_prefix_str _ _ _ (by decide), not_prefix_str _ _ _ (by decide)⟩
  · obtain ⟨v, rfl⟩ := mem_optItem h6
    exact ⟨not_prefix_str _ _ _ (by decide), not_prefix_str _ _ _ (by decide)⟩
  · obtain ⟨v, rfl⟩ := mem_optItem h7
    exact ⟨not_prefix_str _ _ _ (by decide), not_prefix_str _ _ _ (by decide)⟩
  · obtain ⟨v, rfl⟩ := mem_modelItems h8
    exact ⟨not_prefix_str _ _ _ (by decide), not_prefix_str _ _ _ (by decide)⟩
  · obtain ⟨v, rfl⟩ := mem_contextItems h9
    exact ⟨not_prefix_str _ _ _ (by decide), not_prefix_str _ _ _ (by decide)⟩
  · obtain ⟨v, hv⟩ := mem_quantItems h10
    rcases hv with rfl | rfl
    · exact ⟨not_prefix_str _ _ _ (by decide), not_prefix_str _ _ _ (by decide)⟩
    · exact ⟨not_prefix_str _ _ _ (by decide), not_prefix_str _ _ _ (by decide)⟩
  · obtain ⟨v, rfl⟩ := mem_cpuItems h11
    exact ⟨not_prefix_str _ _ _ (by decide), not_prefix_str _ _ _ (by decide)⟩

theorem C6_witness :
    ratioItems c6st = [] ∧
    ∀ it ∈ statItems c6st c6g,
      ¬ ("Tokens/Prompt Token Ratio:".data <+: it.data) ∧
      ¬ ("Efficiency:".data <+: it.data) :=
  C6_division_guard c6st c6g (Or.inr rfl)

/-!
## Claim C4 — one message block per non-empty version list
-/

theorem bubbleHtml_eq (tz : Int) (v : Version) :
    bubbleHtml tz v = msgOpen (v.role.getD "unknown") ++ bubbleRest tz v := by
  simp only [bubbleHtml, bubbleRest, msgOpen, str_append_assoc]

theorem messageHtml_ne_empty (tz : Int) (v : Version) : messageHtml tz v ≠ "" := by
  intro hh
  have hd : (messageHtml tz v).data = [] := by rw [hh]
  rw [messageHtml, bubbleHtml_eq, msgOpen, str_append_assoc, str_append_assoc,
    String.data_append] at hd
  simp at hd

theorem renderMessage_ne_empty_iff (tz : Int) (m : Message) :
    renderMessage tz m ≠ "" ↔ hasVersions m = true := by
  rw [renderMessage, hasVersions]
  match m.versions with
  | none => simp
  | some [] => simp
  | some (v :: t) => simpa using messageHtml_ne_empty tz v

/-- Claim C4: `content_html` holds exactly one message block per entry of
`messages` whose `versions` list is present and non-empty — the rendered
fragments are in bijection with the messages, an entry without versions
renders as the empty fragment, and an entry with versions renders as a
fragment beginning with the message-block opener for its first version's
role. -/
theorem C4_one_block_per_message (tz : Int) (msgs : List Message) :
    messagesHtml tz msgs = String.join (msgs.map (renderMessage tz)) ∧
    ((msgs.map (renderMessage tz)).filter (fun s => s ≠ "")).length =
      (msgs.filter hasVersions).length ∧
    ∀ m ∈ msgs,
      (hasVersions m = false → renderMessage tz m = "") ∧
      (hasVersions m = true →
        ∃ v rest tail, m.versions = some (v :: rest) ∧
          renderMessage tz m = msgOpen (v.role.getD "unknown") ++ tail) := by
  refine ⟨rfl, ?_, ?_⟩
  · induction msgs with
    | nil => rfl
    | cons m t ih =>
      simp only [List.map_cons, List.filter_cons]
      by_cases hm : hasVersions m = true
      · have h1 : renderMessage tz m ≠ "" := (renderMessage_ne_empty_iff tz m).mpr hm
        rw [if_pos (decide_eq_true h1), if_pos hm]
        simp only [List.length_cons, ih]
      · have h0 : renderMessage tz m = "" := by
          by_contra hc
          exact hm ((renderMessage_ne_empty_iff tz m).mp hc)
        rw [if_neg (by simp [h0]), if_neg hm]
        exact ih
  · rintro ⟨mv⟩ _
    cases mv with
    | none =>
      refine ⟨fun _ => rfl, fun hm => ?_⟩
      simp [hasVersions] at hm
    | some l =>
      cases l with
      | nil =>
        refine ⟨fun _ => rfl, fun hm => ?_⟩
        simp [hasVersions] at hm
      | cons v t =>
        refine ⟨fun hff => ?_, fun _ => ?_⟩
        · simp [hasVersions] at hff
        · refine ⟨v, t, bubbleRest tz v ++
            ((if v.role.getD "unknown" = "assistant" then
                match v.steps with
                | some steps => assistantExtras v steps
                | none => ""
              else "") ++ "</div></div>"), rfl, ?_⟩
          show messageHtml tz v = _
          rw [messageHtml, bubbleHtml_eq, str_append_assoc, str_append_assoc]

theorem C4_witness :
    messagesHtml 0 [⟨some [⟨some "user", none, some [⟨some "text", "hi"⟩], none, none⟩]⟩,
                    ⟨some []⟩, ⟨none⟩] =
      String.join (([⟨some [⟨some "user", none, some [⟨some "text", "hi"⟩], none, none⟩]⟩,
                    ⟨some []⟩, ⟨none⟩] : List Message).map (renderMessage 0)) ∧
    ((([⟨some [⟨some "user", none, some [⟨some "text", "hi"⟩], none, none⟩]⟩,
                    ⟨some []⟩, ⟨none⟩] : List Message).map (renderMessage 0)).filter
        (fun s => s ≠ "")).length =
      (([⟨some [⟨some "user", none, some [⟨some "text", "hi"⟩], none, none⟩]⟩,
                    ⟨some []⟩, ⟨none⟩] : List Message).filter hasVersions).length ∧
    ∀ m ∈ ([⟨some [⟨some "user", none, some [⟨some "text", "hi"⟩], none, none⟩]⟩,
                    ⟨some []⟩, ⟨none⟩] : List Message),
      (hasVersions m = false → renderMessage 0 m = "") ∧
      (hasVersions m = true →
        ∃ v rest tail, m.versions = some (v :: rest) ∧
          renderMessage 0 m = msgOpen (v.role.getD "unknown") ++ tail) :=
  C4_one_block_per_message 0 _

/-!
## Claim C8 — timestamp rendering round-trips
-/

set_option maxHeartbeats 1000000

/-- Calendar sanity: the embedded conversion agrees with the real
proleptic-Gregorian calendar on reference dates. -/
example : civilFromDays 0 = (1970, 1, 1) := by decide

example : civilFromDays 19782 = (2024, 2, 29) := by decide

example : civilFromDays (-1) = (1969, 12, 31) := by decide

example : civilFromDays 11016 = (2000, 2, 29) := by decide

example : civilFromDays 11017 = (2000, 3, 1) := by decide

example : civilFromDays 2932896 = (9999, 12, 31) := by decide

example : civilFromDays 18321 = (2020, 2, 29) := by decide

/-- The two calendar conversions are mutually inverse: stated over the
named intermediate quantities of `civilFromDays` so each arithmetic step
is a small linear problem. -/
theorem civil_inv (zz era doe cc doc qc doq yq doy yoe mp dd m y : Int)
    (h1 : era = zz / 146097)
    (h2 : doe = zz % 146097)
    (h3 : cc = doe / 36524 - doe / 146096)
    (h5 : doc = doe - cc * 36524)
    (h6 : qc = doc / 1461)
    (h8 : doq = doc - qc * 1461)
    (h9 : yq = doq / 365 - doq / 1460)
    (h11 : doy = doq - yq * 365)
    (h12 : yoe = 100 * cc + 4 * qc + yq)
    (h13 : mp = (5 * doy + 2) / 153)
    (h14 : dd = doy - (153 * mp + 2) / 5 + 1)
    (h15 : m = mp + (if mp < 10 then 3 else -9))
    (h16 : y = yoe + era * 400 + (if m ≤ 2 then 1 else 0)) :
    daysFromCivil y m dd = zz - 719468 := by
  obtain ⟨hdoe0, hdoe1⟩ : 0 ≤ doe ∧ doe ≤ 146096 := by
    clear h3 h5 h6 h8 h9 h11 h12 h13 h14 h15 h16
    omega
  obtain ⟨hcc0, hcc1, hdoc0, hdoc1⟩ : 0 ≤ cc ∧ cc ≤ 3 ∧ 0 ≤ doc ∧ doc ≤ 36524 := by
    clear h1 h2 h6 h8 h9 h11 h12 h13 h14 h15 h16
    omega
  obtain ⟨hqc0, hqc1, hdoq0, hdoq1⟩ : 0 ≤ qc ∧ qc ≤ 24 ∧ 0 ≤ doq ∧ doq ≤ 1460 := by
    clear h1 h2 h3 h5 h9 h11 h12 h13 h14 h15 h16
    omega
  obtain ⟨hyq0, hyq1, hdoy0, hdoy1⟩ : 0 ≤ yq ∧ yq ≤ 3 ∧ 0 ≤ doy ∧ doy ≤ 365 := by
    clear h1 h2 h3 h5 h6 h8 h12 h13 h14 h15 h16
    omega
  obtain ⟨hyoe0, hyoe1⟩ : 0 ≤ yoe ∧ yoe ≤ 399 := by
    clear h1 h2 h3 h5 h6 h8 h9 h11 h13 h14 h15 h16
    omega
  obtain ⟨hmp0, hmp1⟩ : 0 ≤ mp ∧ mp ≤ 11 := by
    clear h1 h2 h3 h5 h6 h8 h9 h11 h12 h14 h15 h16
    omega
  have E2 : yoe / 4 = 25 * cc + qc := by
    clear h1 h2 h3 h5 h6 h8 h9 h11 h13 h14 h15 h16
    omega
  have E3 : yoe / 100 = cc := by
    clear h1 h2 h3 h5 h6 h8 h9 h11 h13 h14 h15 h16
    omega
  have E4 : 365 * yoe + yoe / 4 - yoe / 100 + doy = doe := by
    rw [E2, E3]
    clear h1 h2 h3 h6 h9 h13 h14 h15 h16 E2 E3
    omega
  have hdd : (153 * mp + 2) / 5 + dd - 1 = doy := by
    clear h1 h2 h3 h5 h6 h8 h9 h11 h12 h13 h15 h16
    omega
  clear h3 h5 h6 h8 h9 h11 h13
  simp only [daysFromCivil]
  split_ifs at h15 h16 ⊢ <;>
    first
    | omega
    | (have Fm : m + 9 = mp := by omega
       have F1 : (y - 1) / 400 = era := by omega
       have F2 : y - 1 - (y - 1) / 400 * 400 = yoe := by omega
       rw [Fm, F2, F1]
       omega)
    | (have Fm : m + -3 = mp := by omega
       have F1 : (y - 0) / 400 = era := by omega
       have F2 : y - 0 - (y - 0) / 400 * 400 = yoe := by omega
       rw [Fm, F2, F1]
       omega)

theorem civil_roundtrip (z : Int) :
    daysFromCivil (civilFromDays z).1 (civilFromDays z).2.1 (civilFromDays z).2.2 = z := by
  have h := civil_inv (z + 719468)
    ((z + 719468) / 146097) ((z + 719468) % 146097) _ _ _ _ _ _ _ _ _ _ _
    rfl rfl rfl rfl rfl rfl rfl rfl rfl rfl rfl rfl rfl
  have he : daysFromCivil (civilFromDays z).1 (civilFromDays z).2.1 (civilFromDays z).2.2
      = z + 719468 - 719468 := h
  omega

theorem civil_bounds_core (doe cc doc qc doq yq doy mp dd m : Int)
    (h0 : 0 ≤ doe) (h1 : doe ≤ 146096)
    (h3 : cc = doe / 36524 - doe / 146096)
    (h5 : doc = doe - cc * 36524)
    (h6 : qc = doc / 1461)
    (h8 : doq = doc - qc * 1461)
    (h9 : yq = doq / 365 - doq / 1460)
    (h11 : doy = doq - yq * 365)
    (h13 : mp = (5 * doy + 2) / 153)
    (h14 : dd = doy - (153 * mp + 2) / 5 + 1)
    (h15 : m = mp + (if mp < 10 then 3 else -9)) :
    1 ≤ m ∧ m ≤ 12 ∧ 1 ≤ dd ∧ dd ≤ 31 := by
  obtain ⟨hdoc0, hdoc1⟩ : 0 ≤ doc ∧ doc ≤ 36524 := by
    clear h6 h8 h9 h11 h13 h14 h15
    omega
  obtain ⟨hdoq0, hdoq1⟩ : 0 ≤ doq ∧ doq ≤ 1460 := by
    clear h3 h5 h9 h11 h13 h14 h15
    omega
  obtain ⟨hdoy0, hdoy1⟩ : 0 ≤ doy ∧ doy ≤ 365 := by
    clear h3 h5 h6 h8 h13 h14 h15
    omega
  obtain ⟨hdd1, hdd2, hmp0, hmp1⟩ : 1 ≤ dd ∧ dd ≤ 31 ∧ 0 ≤ mp ∧ mp ≤ 11 := by
    clear h3 h5 h6 h8 h9 h11 h15
    omega
  split_ifs at h15 <;> omega

theorem civilFromDays_m_d (z : Int) :
    1 ≤ (civilFromDays z).2.1 ∧ (civilFromDays z).2.1 ≤ 12 ∧
    1 ≤ (civilFromDays z).2.2 ∧ (civilFromDays z).2.2 ≤ 31 :=
  civil_bounds_core ((z + 719468) % 146097) _ _ _ _ _ _ _ _ _
    (by omega) (by omega) rfl rfl rfl rfl rfl rfl rfl rfl rfl

theorem digitCh_isDigit (n : Nat) : (digitCh n).isDigit = true := by
  unfold digitCh
  have h : n % 10 < 10 := Nat.mod_lt _ (by norm_num)
  interval_cases h2 : n % 10 <;> rfl

theorem digitVal_digitCh (n : Nat) : digitVal (digitCh n) = n % 10 := by
  unfold digitVal digitCh
  have h : n % 10 < 10 := Nat.mod_lt _ (by norm_num)
  interval_cases h2 : n % 10 <;> rfl

/-- Parsing inverts rendering on the field level for in-range fields. -/
theorem parse_render (Y Mo Da H Mi S : Nat)
    (hY1 : 1000 ≤ Y) (hY2 : Y ≤ 9999) (hMo1 : 1 ≤ Mo) (hMo2 : Mo ≤ 12)
    (hDa1 : 1 ≤ Da) (hDa2 : Da ≤ 31) (hH : H ≤ 23) (hMi : Mi ≤ 59) (hS : S ≤ 59) :
    parseDateTime (pad4 Y ++ '-' :: pad2 Mo ++ '-' :: pad2 Da ++
        ' ' :: pad2 H ++ ':' :: pad2 Mi ++ ':' :: pad2 S)
      = some ((Y : Int), (Mo : Int), (Da : Int), (H : Int), (Mi : Int), (S : Int)) := by
  simp only [pad4, pad2, List.cons_append, List.nil_append, parseDateTime]
  rw [if_pos (by simp [digitCh_isDigit])]
  simp only [digitVal_digitCh]
  have e1 : (Y / 1000 % 10 * 1000 + Y / 100 % 10 * 100 + Y / 10 % 10 * 10 + Y % 10 : Nat) = Y := by
    omega
  have e2 : (Mo / 10 % 10 * 10 + Mo % 10 : Nat) = Mo := by omega
  have e3 : (Da / 10 % 10 * 10 + Da % 10 : Nat) = Da := by omega
  have e4 : (H / 10 % 10 * 10 + H % 10 : Nat) = H := by omega
  have e5 : (Mi / 10 % 10 * 10 + Mi % 10 : Nat) = Mi := by omega
  have e6 : (S / 10 % 10 * 10 + S % 10 : Nat) = S := by omega
  rw [e1, e2, e3, e4, e5, e6]
  rw [if_pos (by omega)]

/-- Claim C8: re-parsing a rendered timestamp with the same format (and
the same fixed local offset `tz`) reproduces the original epoch
millisecond value truncated (floored) to seconds, whenever the rendered
year has four digits. -/
theorem C8_timestamp_roundtrip (tz ms : Int)
    (hy1 : 1000 ≤ (civilFromDays ((ms / 1000 + tz) / 86400)).1)
    (hy2 : (civilFromDays ((ms / 1000 + tz) / 86400)).1 ≤ 9999) :
    parseTimestamp tz (fmtTimestamp tz ms) = some (ms / 1000) := by
  obtain ⟨hm1, hm2, hd1, hd2⟩ := civilFromDays_m_d ((ms / 1000 + tz) / 86400)
  have hround := civil_roundtrip ((ms / 1000 + tz) / 86400)
  rw [parseTimestamp, fmtTimestamp]
  have hdata : (String.mk (fmtDateTime (ms / 1000 + tz))).data = fmtDateTime (ms / 1000 + tz) :=
    rfl
  rw [hdata, fmtDateTime]
  have hsod : (((ms / 1000 + tz) % 86400)).toNat < 86400 := by omega
  rw [parse_render _ _ _ _ _ _ (by omega) (by omega) (by omega) (by omega)
    (by omega) (by omega) (by omega) (by omega) (by omega)]
  simp only [Option.map_some']
  have hc1 : (((civilFromDays ((ms / 1000 + tz) / 86400)).1.toNat : Int)) =
      (civilFromDays ((ms / 1000 + tz) / 86400)).1 := by omega
  have hc2 : (((civilFromDays ((ms / 1000 + tz) / 86400)).2.1.toNat : Int)) =
      (civilFromDays ((ms / 1000 + tz) / 86400)).2.1 := by omega
  have hc3 : (((civilFromDays ((ms / 1000 + tz) / 86400)).2.2.toNat : Int)) =
      (civilFromDays ((ms / 1000 + tz) / 86400)).2.2 := by omega
  rw [hc1, hc2, hc3, hround]
  congr 1
  omega

theorem C8_witness :
    1000 ≤ (civilFromDays ((1712345678901 / 1000 + 0) / 86400)).1 ∧
    (civilFromDays ((1712345678901 / 1000 + 0) / 86400)).1 ≤ 9999 ∧
    parseTimestamp 0 (fmtTimestamp 0 1712345678901) = some (1712345678901 / 1000) :=
  ⟨by decide, by decide, C8_timestamp_roundtrip 0 1712345678901 (by decide) (by decide)⟩

/-!
## Claim C9 — a trailing list is opened but never closed
-/

theorem prefix_append_iff_of_le (p x b : List Char) (h : p.length ≤ x.length) :
    p <+: x ++ b ↔ p <+: x :=
  ⟨fun hp => List.prefix_of_prefix_length_le hp (List.prefix_append x b) h,
   fun hp => hp.trans (List.prefix_append x b)⟩

theorem countOcc_append (p a b : List Char)
    (hspan : ∀ s, s <:+ a → s ≠ [] → s.length < p.length → ¬ p <+: (s ++ b)) :
    countOcc p (a ++ b) = countOcc p a + countOcc p b := by
  induction a with
  | nil => simp [countOcc]
  | cons c t ih =>
    have ht : ∀ s, s <:+ t → s ≠ [] → s.length < p.length → ¬ p <+: (s ++ b) :=
      fun s hs => hspan s (hs.trans (List.suffix_cons c t))
    rw [List.cons_append, countOcc, countOcc, ih ht]
    have hind : (if p.isPrefixOf (c :: (t ++ b)) then 1 else 0) =
        (if p.isPrefixOf (c :: t) then 1 else 0) := by
      by_cases hlen : p.length ≤ (c :: t).length
      · have hiff : (p.isPrefixOf (c :: (t ++ b)) = true) ↔ (p.isPrefixOf (c :: t) = true) := by
          rw [ List.isPrefixOf_iff_prefix, List.isPrefixOf_iff_prefix, ← List.cons_append]
          exact prefix_append_iff_of_le p (c :: t) b hlen
        exact if_congr hiff rfl rfl
      · push_neg at hlen
        rw [if_neg, if_neg]
        · intro hc
          have hle := ( List.isPrefixOf_iff_prefix.mp hc).length_le
          simp only [List.length_cons] at hle hlen
          omega
        · intro hc
          have hp := List.isPrefixOf_iff_prefix.mp hc
          exact hspan (c :: t) List.suffix_rfl (by simp) hlen (by rwa [List.cons_append])
    omega

theorem noSpan_of_ends_gt (p a b : List Char)
    (hp : ∀ k, 0 < k → k < p.length → (p.take k).getLast? ≠ some '>')
    (ha : a.getLast? = some '>') :
    ∀ s, s <:+ a → s ≠ [] → s.length < p.length → ¬ p <+: (s ++ b) := by
  intro s hs hne hlen hpre
  have h1 : s <+: p :=
    List.prefix_of_prefix_length_le (List.prefix_append s b) hpre (le_of_lt hlen)
  have h2 : s = p.take s.length := List.prefix_iff_eq_take.mp h1
  have h3 : s.getLast? = some '>' := by
    obtain ⟨t, rfl⟩ := hs
    rwa [List.getLast?_append_of_ne_nil t hne] at ha
  apply hp s.length (List.length_pos.mpr hne) hlen
  rw [← h2]
  exact h3

theorem noSpan_of_starts_ch (ch : Char) (p a b : List Char)
    (hp : ∀ k, 0 < k → k < p.length → (p.drop k).head? ≠ some ch)
    (hb : b.head? = some ch) :
    ∀ s, s <:+ a → s ≠ [] → s.length < p.length → ¬ p <+: (s ++ b) := by
  intro s hs hne hlen hpre
  have h1 : s <+: p :=
    List.prefix_of_prefix_length_le (List.prefix_append s b) hpre (le_of_lt hlen)
  have h2 : s = p.take s.length := List.prefix_iff_eq_take.mp h1
  have hps : s ++ p.drop s.length = p := by
    nth_rewrite 1 [h2]
    exact List.take_append_drop _ p
  have h3 : s ++ p.drop s.length <+: s ++ b := by
    rw [hps]
    exact hpre
  have h4 : p.drop s.length <+: b := (List.prefix_append_right_inj s).mp h3
  have hd : p.drop s.length ≠ [] := by
    intro hh
    have := congrArg List.length hh
    simp [List.length_drop] at this
    omega
  have h5 : (p.drop s.length).head? = some ch := by
    obtain ⟨t, ht⟩ := h4
    calc (p.drop s.length).head? = ((p.drop s.length) ++ t).head? :=
          (List.head?_append_of_ne_nil _ hd).symm
    _ = b.head? := by rw [ht]
    _ = some ch := hb
  exact hp s.length (List.length_pos.mpr hne) hlen h5

theorem countOcc_pos_iff (p : List Char) (hp : p ≠ []) (l : List Char) :
    0 < countOcc p l ↔ p <:+: l := by
  induction l with
  | nil =>
    simp [countOcc, List.infix_nil, hp]
  | cons c t ih =>
    rw [countOcc, List.infix_cons_iff]
    by_cases h : p.isPrefixOf (c :: t)
    · simp [h, List.isPrefixOf_iff_prefix.mp h]
    · have h' : ¬ p <+: c :: t := fun hc => h ( List.isPrefixOf_iff_prefix.mpr hc)
      simp [h, h', ih]

theorem countOcc_zero_of_inf {p t s : List Char} (hp : p ≠ [])
    (hi : t <:+: s) (hz : countOcc p s = 0) : countOcc p t = 0 := by
  by_contra hc
  have h1 : p <:+: t := (countOcc_pos_iff p hp t).mp (Nat.pos_of_ne_zero hc)
  have h2 := (countOcc_pos_iff p hp s).mpr (h1.trans hi)
  omega

theorem not_prefix_nl_cons (p x : List Char) (hnl : '\n' ∉ p) (hp : p ≠ []) :
    ¬ p <+: '\n' :: x := by
  intro hc
  cases p with
  | nil => exact hp rfl
  | cons ph pt =>
    rw [List.cons_prefix_cons] at hc
    exact hnl (hc.1 ▸ List.mem_cons_self _ _)

theorem countOcc_nl_cons (p x : List Char) (hnl : '\n' ∉ p) (hp : p ≠ []) :
    countOcc p ('\n' :: x) = countOcc p x := by
  rw [countOcc,
    if_neg (fun hc => not_prefix_nl_cons p x hnl hp ( List.isPrefixOf_iff_prefix.mp hc))]
  omega

theorem noSpan_nl (p a x : List Char) (hnl : '\n' ∉ p) :
    ∀ s, s <:+ a → s ≠ [] → s.length < p.length → ¬ p <+: (s ++ '\n' :: x) := by
  apply noSpan_of_starts_ch '\n'
  · intro k h1 h2 hc
    rw [List.head?_drop] at hc
    exact hnl (List.getElem?_mem hc)
  · rfl

theorem countOcc_joinNl (p : List Char) (hp : p ≠ []) (hnl : '\n' ∉ p) :
    ∀ ls : List (List Char), countOcc p (joinNl ls) = (ls.map (countOcc p)).sum := by
  intro ls
  induction ls with
  | nil => simp [joinNl, countOcc]
  | cons a t ih =>
    cases t with
    | nil => simp [joinNl]
    | cons b t2 =>
      rw [show joinNl (a :: b :: t2) = a ++ '\n' :: joinNl (b :: t2) from rfl]
      rw [countOcc_append p a ('\n' :: joinNl (b :: t2)) (noSpan_nl p a _ hnl)]
      rw [countOcc_nl_cons p _ hnl hp]
      simp [ih]

theorem stripEnd_pre (l : List Char) : stripEnd l <+: l := by
  unfold stripEnd
  have h : l.reverse.dropWhile pyWs <:+ l.reverse := List.dropWhile_suffix pyWs
  have h2 : (l.reverse.dropWhile pyWs).reverse <+: l.reverse.reverse := List.reverse_prefix.mpr h
  rwa [List.reverse_reverse] at h2

theorem pyStrip_inf (l : List Char) : pyStrip l <:+: l := by
  unfold pyStrip
  exact (stripEnd_pre _).isInfix.trans (List.dropWhile_suffix pyWs).isInfix

theorem liItem_inf (l : List Char) : liItem l <:+: l :=
  (pyStrip_inf _).trans (List.drop_suffix 2 l).isInfix

theorem noUl_counts {l : List Char} (h : noUl l = true) :
    countOcc "<ul>".data l = 0 ∧ countOcc "</ul>".data l = 0 := by
  unfold noUl at h
  simp only [Bool.and_eq_true, beq_iff_eq] at h
  exact h

theorem clean_of_inf {t l : List Char} (h : noUl l = true) (hi : t <:+: l) :
    countOcc "<ul>".data t = 0 ∧ countOcc "</ul>".data t = 0 := by
  obtain ⟨h1, h2⟩ := noUl_counts h
  exact ⟨countOcc_zero_of_inf (by decide) hi h1,
         countOcc_zero_of_inf (by decide) hi h2⟩

theorem hpT_ul : ∀ k, 0 < k → k < ("<ul>".data).length →
    (("<ul>".data).take k).getLast? ≠ some '>' := by
  intro k h1 h2
  have h3 : k < 4 := h2
  interval_cases k <;> decide

theorem hpT_cul : ∀ k, 0 < k → k < ("</ul>".data).length →
    (("</ul>".data).take k).getLast? ≠ some '>' := by
  intro k h1 h2
  have h3 : k < 5 := h2
  interval_cases k <;> decide

theorem hpD_ul : ∀ k, 0 < k → k < ("<ul>".data).length →
    (("<ul>".data).drop k).head? ≠ some '<' := by
  intro k h1 h2
  have h3 : k < 4 := h2
  interval_cases k <;> decide

theorem hpD_cul : ∀ k, 0 < k → k < ("</ul>".data).length →
    (("</ul>".data).drop k).head? ≠ some '<' := by
  intro k h1 h2
  have h3 : k < 5 := h2
  interval_cases k <;> decide

theorem count_line_wrap (p pre mid post : List Char)
    (hT : ∀ k, 0 < k → k < p.length → (p.take k).getLast? ≠ some '>')
    (hD : ∀ k, 0 < k → k < p.length → (p.drop k).head? ≠ some '<')
    (hpre : pre.getLast? = some '>') (hpost : post.head? = some '<')
    (hmid : countOcc p mid = 0) :
    countOcc p (pre ++ mid ++ post) = countOcc p pre + countOcc p post := by
  rw [countOcc_append p (pre ++ mid) post (noSpan_of_starts_ch '<' p _ post hD hpost)]
  rw [countOcc_append p pre mid (noSpan_of_ends_gt p pre mid hT hpre)]
  omega

theorem count_append_close (p p0 X line : List Char)
    (hT : ∀ k, 0 < k → k < p.length → (p.take k).getLast? ≠ some '>')
    (hp0 : p0.getLast? = some '>') (hX : X.getLast? = some '>') (hXne : X ≠ [])
    (hline : countOcc p line = 0) :
    countOcc p (p0 ++ X ++ line) = countOcc p p0 + countOcc p X := by
  have h1 : (p0 ++ X).getLast? = some '>' := by
    rw [List.getLast?_append_of_ne_nil p0 hXne]
    exact hX
  rw [countOcc_append p (p0 ++ X) line (noSpan_of_ends_gt p _ line hT h1)]
  rw [countOcc_append p p0 X (noSpan_of_ends_gt p p0 X hT hp0)]
  omega

theorem ulSum_cons (x : List Char) (acc : List (List Char)) :
    ulSum (x :: acc) = countOcc "<ul>".data x + ulSum acc := by
  unfold ulSum
  rw [List.map_cons, List.sum_cons]

theorem culSum_cons (x : List Char) (acc : List (List Char)) :
    culSum (x :: acc) = countOcc "</ul>".data x + culSum acc := by
  unfold culSum
  rw [List.map_cons, List.sum_cons]

theorem li_line_last (mid : List Char) (pre : List Char) :
    (pre ++ mid ++ "</li>".data).getLast? = some '>' := by
  rw [List.getLast?_append_of_ne_nil _ (by decide)]
  rfl

theorem listStep_eq (acc : List (List Char)) (inl : Bool) (line : List Char) :
    listStep (acc, inl) line =
    (if isListLine line then
      if inl then (("<li>".data ++ liItem line ++ "</li>".data) :: acc, true)
      else (("<ul><li>".data ++ liItem line ++ "</li>".data) :: acc, true)
    else if inl && !(pyStrip line).isEmpty then
      if rawListStart line then
        (("<li>".data ++ liItem line ++ "</li>".data) :: acc, true)
      else
        match acc with
        | p :: t => (line :: (p ++ "</ul><p>".data ++ line) :: t, false)
        | [] => ([line], false)
    else if inl then
      match acc with
      | p :: t => (line :: (p ++ "</ul>".data) :: t, false)
      | [] => ([line], false)
    else (line :: acc, inl)) := rfl

theorem listStep_inv (acc : List (List Char)) (inl : Bool) (line : List Char)
    (hline : noUl line = true) (hinv : ScanInv (acc, inl)) :
    ScanInv (listStep (acc, inl) line) := by
  have hsum : ulSum acc = culSum acc + (if inl = true then 1 else 0) := hinv.1
  have hflag : inl = true → ∃ h t, acc = h :: t ∧ h.getLast? = some '>' := hinv.2
  obtain ⟨hcl1, hcl2⟩ := noUl_counts hline
  obtain ⟨hli1, hli2⟩ := clean_of_inf hline (liItem_inf line)
  have hw1 := count_line_wrap "<ul>".data "<ul><li>".data (liItem line) "</li>".data
    hpT_ul hpD_ul rfl rfl hli1
  have hw2 := count_line_wrap "</ul>".data "<ul><li>".data (liItem line) "</li>".data
    hpT_cul hpD_cul rfl rfl hli2
  have hw3 := count_line_wrap "<ul>".data "<li>".data (liItem line) "</li>".data
    hpT_ul hpD_ul rfl rfl hli1
  have hw4 := count_line_wrap "</ul>".data "<li>".data (liItem line) "</li>".data
    hpT_cul hpD_cul rfl rfl hli2
  have e1 : countOcc "<ul>".data "<li>".data = 0 := by decide
  have e2 : countOcc "</ul>".data "<li>".data = 0 := by decide
  have e3 : countOcc "<ul>".data "</li>".data = 0 := by decide
  have e4 : countOcc "</ul>".data "</li>".data = 0 := by decide
  have e5 : countOcc "<ul>".data "<ul><li>".data = 1 := by decide
  have e6 : countOcc "</ul>".data "<ul><li>".data = 0 := by decide
  have e7 : countOcc "<ul>".data "</ul><p>".data = 0 := by decide
  have e8 : countOcc "</ul>".data "</ul><p>".data = 1 := by decide
  have e9 : countOcc "<ul>".data "</ul>".data = 0 := by decide
  have e10 : countOcc "</ul>".data "</ul>".data = 1 := by decide
  have hs1 : (if (true : Bool) = true then (1 : Nat) else 0) = 1 := rfl
  have hs0 : (if (false : Bool) = true then (1 : Nat) else 0) = 0 := rfl
  rw [listStep_eq]
  by_cases h1 : isListLine line
  · rw [if_pos h1]
    by_cases h2 : inl
    · obtain ⟨p0, t0, rfl, hp0⟩ := hflag h2
      rw [if_pos h2]
      refine ⟨?_, fun _ => ⟨_, _, rfl, li_line_last _ _⟩⟩
      rw [h2, hs1] at hsum
      show ulSum _ = culSum _ + _
      rw [ulSum_cons, culSum_cons, hw3, hw4, hs1, e1, e2, e3, e4]
      omega
    · have h2f : inl = false := Bool.eq_false_iff.mpr h2
      rw [if_neg h2]
      refine ⟨?_, fun _ => ⟨_, _, rfl, li_line_last _ _⟩⟩
      rw [h2f, hs0] at hsum
      show ulSum _ = culSum _ + _
      rw [ulSum_cons, culSum_cons, hw1, hw2, hs1, e3, e4, e5, e6]
      omega
  · rw [if_neg h1]
    by_cases h2 : inl && !(pyStrip line).isEmpty
    · rw [if_pos h2]
      have h2a : inl = true := ((Bool.and_eq_true _ _).mp h2).1
      obtain ⟨p0, t0, rfl, hp0⟩ := hflag h2a
      by_cases h3 : rawListStart line
      · rw [if_pos h3]
        refine ⟨?_, fun _ => ⟨_, _, rfl, li_line_last _ _⟩⟩
        rw [h2a, hs1] at hsum
        rw [ulSum_cons, culSum_cons] at hsum
        show ulSum _ = culSum _ + _
        rw [ulSum_cons, culSum_cons, hw3, hw4, hs1, e1, e2, e3, e4]
        rw [ulSum_cons, culSum_cons]
        omega
      · rw [if_neg h3]
        refine ⟨?_, fun hff => by simp at hff⟩
        have c1 := count_append_close "<ul>".data p0 "</ul><p>".data line hpT_ul hp0 rfl
          (by decide) hcl1
        have c2 := count_append_close "</ul>".data p0 "</ul><p>".data line hpT_cul hp0 rfl
          (by decide) hcl2
        rw [h2a, hs1] at hsum
        rw [ulSum_cons, culSum_cons] at hsum
        show ulSum _ = culSum _ + _
        rw [ulSum_cons, culSum_cons, ulSum_cons, culSum_cons, c1, c2, hs0, hcl1, hcl2,
          e7, e8]
        omega
    · rw [if_neg h2]
      by_cases h4 : inl
      · rw [if_pos h4]
        obtain ⟨p0, t0, rfl, hp0⟩ := hflag h4
        refine ⟨?_, fun hff => by simp at hff⟩
        have c1 : countOcc "<ul>".data (p0 ++ "</ul>".data) =
            countOcc "<ul>".data p0 + countOcc "<ul>".data "</ul>".data :=
          countOcc_append _ p0 _ (noSpan_of_ends_gt _ p0 _ hpT_ul hp0)
        have c2 : countOcc "</ul>".data (p0 ++ "</ul>".data) =
            countOcc "</ul>".data p0 + countOcc "</ul>".data "</ul>".data :=
          countOcc_append _ p0 _ (noSpan_of_ends_gt _ p0 _ hpT_cul hp0)
        rw [h4, hs1] at hsum
        rw [ulSum_cons, culSum_cons] at hsum
        show ulSum _ = culSum _ + _
        rw [ulSum_cons, culSum_cons, ulSum_cons, culSum_cons, c1, c2, hs0, hcl1, hcl2,
          e9, e10]
        omega
      · have h4f : inl = false := by
          cases inl
          · rfl
          · exact absurd rfl h4
        rw [if_neg h4]
        refine ⟨?_, fun hff => absurd hff h4⟩
        rw [h4f, hs0] at hsum
        show ulSum _ = culSum _ + _
        rw [ulSum_cons, culSum_cons, h4f, hs0, hcl1, hcl2]
        omega

theorem listStep_flag (st : List (List Char) × Bool) (line : List Char)
    (h : isListLine line = true) : (listStep st line).2 = true := by
  obtain ⟨acc, inl⟩ := st
  rw [listStep_eq, if_pos h]
  cases inl
  · rfl
  · rfl

theorem foldl_scan_inv (lines : List (List Char)) :
    ∀ st : List (List Char) × Bool, ScanInv st → (∀ l ∈ lines, noUl l = true) →
    ScanInv (lines.foldl listStep st) := by
  induction lines with
  | nil => exact fun st hst _ => hst
  | cons a t ih =>
    intro st hst h
    rw [List.foldl_cons]
    refine ih _ ?_ (fun l hl => h l (List.mem_cons_of_mem a hl))
    obtain ⟨acc, inl⟩ := st
    exact listStep_inv acc inl a (h a (List.mem_cons_self a t)) hst

/-- Claim C9, amended to the line scan itself: for every non-empty line
sequence whose last line is a list item and whose lines hold no literal
list tags of their own, the scanned output holds exactly one more
list-open tag than list-close tags — the final list is opened but never
closed, since a close tag is only appended when a later non-list line is
seen while the flag is set. -/
theorem C9_unclosed_list (lines : List (List Char)) (h1 : lines ≠ [])
    (h2 : isListLine (lines.getLast h1) = true)
    (h3 : ∀ l ∈ lines, noUl l = true) :
    countOcc "<ul>".data (joinNl (listPass lines)) =
    countOcc "</ul>".data (joinNl (listPass lines)) + 1 := by
  obtain ⟨t, x, rfl⟩ := (List.eq_nil_or_concat lines).resolve_left h1
  have hx : isListLine x = true := by
    have ha : (t.concat x).getLast? = some x := by
      rw [List.concat_eq_append]
      exact List.getLast?_concat _
    have hb := List.getLast?_eq_getLast (t.concat x) h1
    rw [hb] at ha
    injection ha with he
    rw [← he]
    exact h2
  rw [List.concat_eq_append] at h3 ⊢
  have hinv0 : ScanInv (([] : List (List Char)), false) := ⟨rfl, fun h => nomatch h⟩
  have hinvF : ScanInv ((t ++ [x]).foldl listStep ([], false)) :=
    foldl_scan_inv (t ++ [x]) _ hinv0 h3
  have hfold : (t ++ [x]).foldl listStep ([], false) =
      listStep (t.foldl listStep ([], false)) x := by
    rw [List.foldl_append, List.foldl_cons, List.foldl_nil]
  have hflagF : ((t ++ [x]).foldl listStep ([], false)).2 = true := by
    rw [hfold]
    exact listStep_flag _ x hx
  have hsum : ulSum ((t ++ [x]).foldl listStep ([], false)).1 =
      culSum ((t ++ [x]).foldl listStep ([], false)).1 + 1 := by
    have hq := hinvF.1
    rw [hflagF] at hq
    simpa using hq
  have hUL : countOcc "<ul>".data (joinNl (listPass (t ++ [x]))) =
      ulSum ((t ++ [x]).foldl listStep ([], false)).1 := by
    rw [listPass, countOcc_joinNl "<ul>".data (by decide) (by decide),
      List.map_reverse, List.sum_reverse]
    rfl
  have hCUL : countOcc "</ul>".data (joinNl (listPass (t ++ [x]))) =
      culSum ((t ++ [x]).foldl listStep ([], false)).1 := by
    rw [listPass, countOcc_joinNl "</ul>".data (by decide) (by decide),
      List.map_reverse, List.sum_reverse]
    rfl
  rw [hUL, hCUL]
  exact hsum

theorem C9_witness :
    countOcc "<ul>".data (joinNl (listPass ["- a".data])) =
    countOcc "</ul>".data (joinNl (listPass ["- a".data])) + 1 :=
  C9_unclosed_list ["- a".data] (by decide) (by decide) (by decide)

/-- Claim C9, counterexample to the claim as stated: for the input
"#\n- a" the final line is a list item, yet the output holds no list-open
tag at all — the header pass runs before the list scan and its whitespace
class crosses the newline, so the whole rest of the input is swallowed
into the header and the list scan never sees a list line. -/
theorem C9_counterexample :
    (splitNl "#\n- a".data).getLast? = some "- a".data ∧
    isListLine "- a".data = true ∧
    format_content "#\n- a" = "<h3>- a</h3>" ∧
    strHasSub (format_content "#\n- a") "<ul>" = false :=
  ⟨rfl, rfl, rfl, rfl⟩

